import Mathlib

/-!
Shallow embedding of the management-rating pipeline in `src/app.py`:
the category schema and alias table (lines 39-52), `normalize_ratings`
(lines 82-88), the justification hygiene gate (lines 199-205), the
red-flag override block (lines 207-212), the average computation
(lines 214-215), and the history upsert (lines 225-229), together with
the run block that chains them (lines 192-229).

Python untyped values are modelled by `PyVal`; Python dicts by ordered
association lists with dict-assignment semantics (`pyset`); Python
numbers feeding `round`/division by `ℚ`.
-/

/-- Model of an untyped Python value as it can appear in the scorer's
`ratings` mapping. `vbool` is separate because in Python
`isinstance(True, int)` holds (bool is a subclass of int). -/
inductive PyVal where
  | vint (n : ℤ)
  | vbool (b : Bool)
  | vfloat (q : ℚ)
  | vstr (s : String)
  | vnone
deriving DecidableEq, Repr

/-- Python `isinstance(value, int)`: true for ints and for bools. -/
def PyVal.isInt : PyVal → Bool
  | .vint _ => true
  | .vbool _ => true
  | _ => false

/-- The integer a Python int-like value stands for (`True` is 1, `False` is 0).
Only meaningful when `isInt` holds; other constructors default to 0. -/
def PyVal.toInt : PyVal → ℤ
  | .vint n => n
  | .vbool b => if b then 1 else 0
  | _ => 0

/-- A Python dict with string keys and int-or-None values, as an ordered
association list (insertion order, unique keys in all reachable states). -/
abbrev Dict := List (String × Option ℤ)

/-- A Python dict holding justification strings. -/
abbrev JDict := List (String × String)

/-- The keys of a dict, in order. -/
def keys {α : Type} (d : List (String × α)) : List String := d.map Prod.fst

/-- Python `d[k]` / `d.get(k)`: the value stored under a key. -/
def dlookup {α : Type} (k : String) : List (String × α) → Option α
  | [] => none
  | p :: t => if p.1 = k then some p.2 else dlookup k t

/-- Python `k in d` membership test on a dict. -/
def hasKey {α : Type} (d : List (String × α)) (k : String) : Bool :=
  d.any (fun p => decide (p.1 = k))

/-- Python dict assignment `d[k] = v`: update in place when the key exists,
append at the end otherwise. -/
def pyset {α : Type} (d : List (String × α)) (k : String) (v : α) :
    List (String × α) :=
  if hasKey d k then d.map (fun p => if p.1 = k then (p.1, v) else p)
  else d ++ [(k, v)]

/-- `categories` (src/app.py lines 39-43). -/
def categories : List String :=
  ["Strategy & Vision", "Execution & Delivery",
   "Communication Clarity", "Capital Allocation",
   "Governance & Integrity", "Outlook & Realism"]

/-- `normalization_map` (src/app.py lines 45-52). -/
def normalization_map : List (String × String) :=
  [("Operational Performance", "Execution & Delivery"),
   ("Financial Performance", "Capital Allocation"),
   ("Strategic Growth Initiatives", "Strategy & Vision"),
   ("Forward-looking Statements", "Outlook & Realism"),
   ("Overall Transparency", "Governance & Integrity"),
   ("Investor Relations", "Governance & Integrity")]

/-- `normalization_map.get(key, key)` (src/app.py line 85). -/
def resolve (key : String) : String :=
  (dlookup key normalization_map).getD key

/-- The value test `isinstance(value, int) and 0 <= value <= 5`
(src/app.py line 86). -/
def validPair (v : PyVal) : Bool :=
  v.isInt && decide (0 ≤ v.toInt) && decide (v.toInt ≤ 5)

/-- One iteration of the loop body of `normalize_ratings`
(src/app.py lines 84-87), with `core_key = resolve kv.1` inlined. -/
def nstep (normalized : Dict) (kv : String × PyVal) : Dict :=
  if hasKey normalized (resolve kv.1) && validPair kv.2 then
    pyset normalized (resolve kv.1) (some kv.2.toInt)
  else normalized

/-- `normalize_ratings` (src/app.py lines 82-88): start from every canonical
category at the default sentinel 0, then fold the input pairs in order. -/
def normalize_ratings (ratings : List (String × PyVal)) : Dict :=
  ratings.foldl nstep (categories.map (fun cat => (cat, some (0 : ℤ))))

/-- The fixed replacement message (src/app.py line 205). -/
def insufficientMsg : String := "Insufficient justification provided."

/-- Python `str.strip()`: drop whitespace from both ends. -/
def pyStrip (s : String) : String :=
  ⟨((s.data.dropWhile Char.isWhitespace).reverse.dropWhile
      Char.isWhitespace).reverse⟩

/-- One iteration of the hygiene-gate loop (src/app.py lines 200-205):
skip values that are `None`, force the score to 0 and replace the
justification when the stripped rationale is shorter than 30 characters. -/
def hstep (st : Dict × JDict) (key : String) : Dict × JDict :=
  match dlookup key st.1 with
  | some (some _) =>
      if (pyStrip ((dlookup key st.2).getD "")).length < 30 then
        (pyset st.1 key (some 0), pyset st.2 key insufficientMsg)
      else st
  | _ => st

/-- The hygiene gate (src/app.py lines 199-205): iterate over the keys of
the ratings dict, mutating ratings and justifications. -/
def hygiene (ratings : Dict) (justifications : JDict) : Dict × JDict :=
  (keys ratings).foldl hstep (ratings, justifications)

/-- The per-value effect of the override loop body
`if ratings[k] and ratings[k] > 4: ratings[k] = 3` (src/app.py lines 210-212),
with Python truthiness on the value. -/
def overrideAdjust (v : Option ℤ) : Option ℤ :=
  match v with
  | some n => if n ≠ 0 ∧ 4 < n then some 3 else some n
  | none => none

/-- The red-flag override block (src/app.py lines 207-212): when at least two
red flags are present, compute `sum(int values) / len(categories)` and, if it
exceeds 3.5, clamp every truthy score above 4 down to 3. -/
def redFlagOverride (ratings : Dict) (red_flags : List String) : Dict :=
  if 2 ≤ red_flags.length then
    if (3.5 : ℚ) <
        ((ratings.filterMap Prod.snd).sum : ℚ) / (categories.length : ℚ) then
      ratings.map (fun p => (p.1, overrideAdjust p.2))
    else ratings
  else ratings

/-- Python `round` on a number, `n` digits folded in by the caller:
round half to even, as `round` does. -/
def pyRoundInt (x : ℚ) : ℤ :=
  if x - (⌊x⌋ : ℚ) < 1/2 then ⌊x⌋
  else if 1/2 < x - (⌊x⌋ : ℚ) then ⌊x⌋ + 1
  else if ⌊x⌋ % 2 = 0 then ⌊x⌋ else ⌊x⌋ + 1

/-- `round(x, 4)` modelled exactly over `ℚ`. -/
def round4 (x : ℚ) : ℚ := (pyRoundInt (x * 10000) : ℚ) / 10000

/-- The average computation (src/app.py lines 214-215):
`valid_scores = [v for v in ratings.values() if isinstance(v, int)]` and
`round(sum(valid_scores) / len(valid_scores), 4) if valid_scores else 0`. -/
def avg_score (ratings : Dict) : ℚ :=
  if ratings.filterMap Prod.snd ≠ [] then
    round4 (((ratings.filterMap Prod.snd).sum : ℚ) /
      ((ratings.filterMap Prod.snd).length : ℚ))
  else 0

/-- A History Entry: one row of `management_ratings.csv`
(src/app.py lines 217-223). -/
structure Entry where
  date : String
  company : String
  quarter : String
  ratings : Dict
  average : ℚ
deriving DecidableEq, Repr

/-- The history upsert (src/app.py lines 225-228): drop every row whose
(Company, Quarter) matches the new row's key, then append the new row. -/
def upsert (e : Entry) (l : List Entry) : List Entry :=
  l.filter (fun x => !(x.company == e.company && x.quarter == e.quarter)) ++ [e]

/-- The rows of a ledger holding a given (company, quarter) identity key. -/
def keyEntries (c q : String) (l : List Entry) : List Entry :=
  l.filter (fun x => x.company == c && x.quarter == q)

/-- A ledger has at most one row per identity key. -/
def atMostOnePerKey (l : List Entry) : Prop :=
  ∀ c q, (keyEntries c q l).length ≤ 1

/-- Outcome of the scorer call as seen by `generate_auto_rating`
(src/app.py lines 126-140): either `json.loads` yields the structured
object, or parsing the response text fails. -/
inductive ScorerOutcome where
  | parsed (ratings : List (String × PyVal)) (justification : JDict)
      (red_flags : List String)
  | parseFailure (raw : String)

/-- `generate_auto_rating`'s result as consumed by the run block
(src/app.py lines 134-140 and 192-195): on a parse failure the function
shows an error and returns `{}`, so `result.get('ratings', {})`,
`result.get('justification', {})` and `result.get('red_flags', [])`
all come back empty. -/
def generate_auto_rating :
    ScorerOutcome → List (String × PyVal) × JDict × List String
  | .parsed r j f => (r, j, f)
  | .parseFailure _ => ([], [], [])

/-- The post-processing pipeline of the run block (src/app.py lines 197-212):
normalization, then the hygiene gate, then the red-flag override, in that
source order. -/
def postProcess (ratings_raw : List (String × PyVal)) (justifications : JDict)
    (red_flags : List String) : Dict :=
  redFlagOverride (hygiene (normalize_ratings ratings_raw) justifications).1
    red_flags

/-- The full run block (src/app.py lines 192-229): scorer result to ledger
update, ending with the upsert into the history table. -/
def runRating (scorer : ScorerOutcome) (date company quarter : String)
    (ledger : List Entry) : List Entry :=
  let r := generate_auto_rating scorer
  let ratings := postProcess r.1 r.2.1 r.2.2
  let avg := avg_score ratings
  upsert ⟨date, company, quarter, ratings, avg⟩ ledger

/-- The effect of one input pair on the slot of a fixed category `c`:
a pair that resolves to `c` with a valid value overwrites the slot,
any other pair leaves it alone. Used to characterise `normalize_ratings`. -/
def lastStep (c : String) (acc : Option (Option ℤ)) (kv : String × PyVal) :
    Option (Option ℤ) :=
  if resolve kv.1 = c ∧ validPair kv.2 = true then some (some kv.2.toInt)
  else acc

/-- Stated from the claim's vocabulary, not from the code: the mean of the
categories holding a valid (non-sentinel) score. Used only to compare the
claim's override trigger with the one the code computes. -/
def specValidOnlyMean (r : Dict) : ℚ :=
  ((((r.filterMap Prod.snd).filter (fun v => v ≠ 0)).sum : ℤ) : ℚ) /
    ((((r.filterMap Prod.snd).filter (fun v => v ≠ 0)).length : ℕ) : ℚ)

/-- The raw input of the spec's average-computation example: every category
scored except Communication Clarity, which is left to the sentinel. -/
def c2Input : List (String × PyVal) :=
  [("Strategy & Vision", PyVal.vint 5),
   ("Execution & Delivery", PyVal.vint 3),
   ("Capital Allocation", PyVal.vint 4),
   ("Governance & Integrity", PyVal.vint 2),
   ("Outlook & Realism", PyVal.vint 5)]

/-- A raw input scoring only two categories (both 5); the other four hold
the sentinel after normalization. -/
def c3Input : List (String × PyVal) :=
  [("Strategy & Vision", PyVal.vint 5),
   ("Execution & Delivery", PyVal.vint 5)]

/-- A raw input scoring every category 5. -/
def allFivesInput : List (String × PyVal) :=
  [("Strategy & Vision", PyVal.vint 5),
   ("Execution & Delivery", PyVal.vint 5),
   ("Communication Clarity", PyVal.vint 5),
   ("Capital Allocation", PyVal.vint 5),
   ("Governance & Integrity", PyVal.vint 5),
   ("Outlook & Realism", PyVal.vint 5)]

/-- A justification record long enough to pass the hygiene gate for every
category. -/
def longJust : JDict :=
  categories.map (fun c => (c, "This rationale clearly exceeds the thirty character floor."))

/-- Two red flags, enough to arm the override. -/
def twoFlags : List String :=
  ["Heavy insider selling", "CFO resigned mid-quarter"]

/-- The normalized record a failed scorer run produces: every category at
the sentinel 0. -/
def zeroDict : Dict := categories.map (fun cat => (cat, some (0 : ℤ)))

/-- A one-row ledger predating the run used in the malformed-response
scenario. -/
def priorLedger : List Entry :=
  [⟨"2026-01-01", "Globex", "Q4 FY23", [], 0⟩]


section DictLemmas

variable {α : Type}

lemma hasKey_iff (d : List (String × α)) (k : String) :
    hasKey d k = true ↔ k ∈ keys d := by
  simp only [hasKey, List.any_eq_true, decide_eq_true_eq, keys, List.mem_map]

lemma keys_update (d : List (String × α)) (k : String) (v : α) :
    keys (d.map (fun p => if p.1 = k then (p.1, v) else p)) = keys d := by
  induction d with
  | nil => rfl
  | cons p t ih =>
    by_cases hp : p.1 = k <;> simp only [keys, List.map_cons] at ih ⊢ <;>
      rw [show (if p.1 = k then (p.1, v) else p).1 = p.1 from by
        by_cases h : p.1 = k <;> simp [h]] <;>
      exact congrArg (p.1 :: ·) ih

lemma keys_pyset (d : List (String × α)) (k : String) (v : α)
    (h : hasKey d k = true) : keys (pyset d k v) = keys d := by
  unfold pyset
  rw [if_pos h]
  exact keys_update d k v

lemma dlookup_update_self (d : List (String × α)) (k : String) (v : α)
    (h : hasKey d k = true) :
    dlookup k (d.map (fun p => if p.1 = k then (p.1, v) else p)) = some v := by
  induction d with
  | nil => simp [hasKey] at h
  | cons p t ih =>
    by_cases hp : p.1 = k
    · simp [dlookup, hp]
    · have ht : hasKey t k = true := by
        simpa [hasKey, hp] using h
      simp [dlookup, hp, ih ht]

lemma dlookup_update_ne (d : List (String × α)) (k c : String) (v : α)
    (hne : c ≠ k) :
    dlookup c (d.map (fun p => if p.1 = k then (p.1, v) else p)) =
      dlookup c d := by
  induction d with
  | nil => rfl
  | cons p t ih =>
    by_cases hp : p.1 = k
    · have hkc : ¬ k = c := fun h => hne h.symm
      simp [dlookup, hp, hkc, ih]
    · by_cases hpc : p.1 = c <;> simp [dlookup, hp, hpc, ih, hne]

lemma dlookup_append (c : String) (l1 l2 : List (String × α)) :
    dlookup c (l1 ++ l2) =
      match dlookup c l1 with
      | some v => some v
      | none => dlookup c l2 := by
  induction l1 with
  | nil => simp [dlookup]
  | cons p t ih =>
    by_cases hp : p.1 = c <;> simp [dlookup, hp, ih]

lemma dlookup_eq_none_of_not_mem (d : List (String × α)) (k : String)
    (h : k ∉ keys d) : dlookup k d = none := by
  induction d with
  | nil => rfl
  | cons p t ih =>
    simp only [keys, List.map_cons, List.mem_cons, not_or] at h
    have hp : ¬ p.1 = k := fun hh => h.1 hh.symm
    simp only [dlookup, if_neg hp]
    exact ih (by simpa [keys] using h.2)

lemma dlookup_pyset_self (d : List (String × α)) (k : String) (v : α) :
    dlookup k (pyset d k v) = some v := by
  unfold pyset
  by_cases h : hasKey d k = true
  · rw [if_pos h]
    exact dlookup_update_self d k v h
  · rw [if_neg h]
    have hk : k ∉ keys d := fun hm => h ((hasKey_iff d k).mpr hm)
    rw [dlookup_append, dlookup_eq_none_of_not_mem d k hk]
    simp [dlookup]

lemma dlookup_pyset_ne (d : List (String × α)) (k c : String) (v : α)
    (hne : c ≠ k) : dlookup c (pyset d k v) = dlookup c d := by
  unfold pyset
  by_cases h : hasKey d k = true
  · rw [if_pos h]
    exact dlookup_update_ne d k c v hne
  · rw [if_neg h, dlookup_append]
    have hk : ¬ k = c := fun hh => hne hh.symm
    cases hd : dlookup c d <;> simp [dlookup, hk]

lemma dlookup_const_map (L : List String) (c : String) (v : α)
    (h : c ∈ L) : dlookup c (L.map (fun x => (x, v))) = some v := by
  induction L with
  | nil => cases h
  | cons a t ih =>
    by_cases ha : a = c
    · simp [dlookup, ha]
    · rcases List.mem_cons.mp h with h1 | h1
      · exact absurd h1.symm ha
      · simp [dlookup, ha, ih h1]

lemma pyset_values {P : α → Prop} (d : List (String × α)) (k : String)
    (v : α) (hd : ∀ p ∈ d, P p.2) (hv : P v) :
    ∀ p ∈ pyset d k v, P p.2 := by
  intro p hp
  unfold pyset at hp
  split at hp
  · obtain ⟨q, hq, rfl⟩ := List.mem_map.mp hp
    by_cases h : q.1 = k
    · simpa [h] using hv
    · simpa [h] using hd q hq
  · rcases List.mem_append.mp hp with h | h
    · exact hd p h
    · simp only [List.mem_singleton] at h
      subst h
      exact hv

end DictLemmas

section NormalizeLemmas

lemma keys_init :
    keys (categories.map (fun cat => (cat, some (0 : ℤ)))) = categories := by
  decide

lemma categories_nodup : categories.Nodup := by decide

lemma keys_nstep (d : Dict) (kv : String × PyVal)
    (hd : keys d = categories) : keys (nstep d kv) = categories := by
  unfold nstep
  by_cases h : (hasKey d (resolve kv.1) && validPair kv.2) = true
  · rw [if_pos h, keys_pyset d _ _ (Bool.and_elim_left h)]
    exact hd
  · rw [if_neg h]
    exact hd

lemma foldl_nstep_keys (rs : List (String × PyVal)) :
    ∀ d : Dict, keys d = categories →
      keys (rs.foldl nstep d) = categories := by
  induction rs with
  | nil => intro d hd; exact hd
  | cons kv t ih =>
    intro d hd
    rw [List.foldl_cons]
    exact ih (nstep d kv) (keys_nstep d kv hd)

lemma nstep_dlookup (d : Dict) (kv : String × PyVal) (c : String)
    (hd : keys d = categories) (hc : c ∈ categories) :
    dlookup c (nstep d kv) = lastStep c (dlookup c d) kv := by
  have hk : hasKey d c = true := (hasKey_iff d c).mpr (hd ▸ hc)
  by_cases h1 : resolve kv.1 = c
  · by_cases h2 : validPair kv.2 = true
    · have e1 : nstep d kv = pyset d c (some kv.2.toInt) := by
        unfold nstep
        rw [h1]
        rw [if_pos (by simp [hk, h2])]
      rw [e1, dlookup_pyset_self]
      unfold lastStep
      rw [if_pos ⟨h1, h2⟩]
    · have e1 : nstep d kv = d := by
        unfold nstep
        rw [if_neg (fun hh => h2 (Bool.and_elim_right hh))]
      rw [e1]
      unfold lastStep
      rw [if_neg (fun hh => h2 hh.2)]
  · have e2 : lastStep c (dlookup c d) kv = dlookup c d := by
      unfold lastStep
      rw [if_neg (fun hh => h1 hh.1)]
    rw [e2]
    unfold nstep
    by_cases hcond : (hasKey d (resolve kv.1) && validPair kv.2) = true
    · rw [if_pos hcond]
      exact dlookup_pyset_ne d (resolve kv.1) c _ (fun hh => h1 hh.symm)
    · rw [if_neg hcond]

lemma normalize_char (rs : List (String × PyVal)) (c : String)
    (hc : c ∈ categories) :
    ∀ d : Dict, keys d = categories →
      dlookup c (rs.foldl nstep d) = rs.foldl (lastStep c) (dlookup c d) := by
  induction rs with
  | nil => intro d _; rfl
  | cons kv t ih =>
    intro d hd
    rw [List.foldl_cons, List.foldl_cons, ih (nstep d kv) (keys_nstep d kv hd),
      nstep_dlookup d kv c hd hc]

lemma normalize_dlookup (rs : List (String × PyVal)) (c : String)
    (hc : c ∈ categories) :
    dlookup c (normalize_ratings rs) =
      rs.foldl (lastStep c) (some (some 0)) := by
  unfold normalize_ratings
  rw [normalize_char rs c hc _ keys_init, dlookup_const_map categories c _ hc]

lemma normalize_keys (rs : List (String × PyVal)) :
    keys (normalize_ratings rs) = categories :=
  foldl_nstep_keys rs _ keys_init

lemma foldl_lastStep_nofire (c : String) (l : List (String × PyVal))
    (a : Option (Option ℤ))
    (h : ∀ kv ∈ l, ¬(resolve kv.1 = c ∧ validPair kv.2 = true)) :
    l.foldl (lastStep c) a = a := by
  induction l generalizing a with
  | nil => rfl
  | cons kv t ih =>
    rw [List.foldl_cons]
    rw [show lastStep c a kv = a from if_neg (h kv (List.mem_cons_self kv t))]
    exact ih a (fun p hp => h p (List.mem_cons_of_mem kv hp))

lemma foldl_lastStep_shape (c : String) (l : List (String × PyVal)) :
    ∀ x : ℤ, ∃ y : ℤ,
      l.foldl (lastStep c) (some (some x)) = some (some y) := by
  induction l with
  | nil => intro x; exact ⟨x, rfl⟩
  | cons kv t ih =>
    intro x
    rw [List.foldl_cons]
    unfold lastStep
    by_cases h : resolve kv.1 = c ∧ validPair kv.2 = true
    · rw [if_pos h]
      exact ih kv.2.toInt
    · rw [if_neg h]
      exact ih x

lemma foldl_nstep_values (rs : List (String × PyVal)) :
    ∀ d : Dict, (∀ p ∈ d, p.2.isSome = true) →
      ∀ p ∈ rs.foldl nstep d, p.2.isSome = true := by
  induction rs with
  | nil => intro d hd; exact hd
  | cons kv t ih =>
    intro d hd
    rw [List.foldl_cons]
    apply ih
    intro p hp
    unfold nstep at hp
    split at hp
    · exact pyset_values (P := fun v => v.isSome = true) d (resolve kv.1)
        (some kv.2.toInt) hd rfl p hp
    · exact hd p hp

lemma normalize_values (rs : List (String × PyVal)) :
    ∀ p ∈ normalize_ratings rs, p.2.isSome = true := by
  apply foldl_nstep_values
  intro p hp
  obtain ⟨x, _, rfl⟩ := List.mem_map.mp hp
  rfl

lemma normalize_some (rs : List (String × PyVal)) (c : String)
    (hc : c ∈ categories) :
    ∃ x : ℤ, dlookup c (normalize_ratings rs) = some (some x) := by
  rw [normalize_dlookup rs c hc]
  exact foldl_lastStep_shape c rs 0

end NormalizeLemmas

section HygieneLemmas

lemma hstep_preserve (st : Dict × JDict) (k c : String) (hne : c ≠ k) :
    dlookup c (hstep st k).1 = dlookup c st.1 ∧
    dlookup c (hstep st k).2 = dlookup c st.2 := by
  unfold hstep
  cases hd : dlookup k st.1 with
  | none => exact ⟨rfl, rfl⟩
  | some v =>
    cases v with
    | none => exact ⟨rfl, rfl⟩
    | some x =>
      by_cases hlen : (pyStrip ((dlookup k st.2).getD "")).length < 30
      · rw [if_pos hlen]
        exact ⟨dlookup_pyset_ne st.1 k c _ hne, dlookup_pyset_ne st.2 k c _ hne⟩
      · rw [if_neg hlen]
        exact ⟨rfl, rfl⟩

lemma hfold_preserve (ks : List String) :
    ∀ st : Dict × JDict, ∀ c : String, c ∉ ks →
      dlookup c (ks.foldl hstep st).1 = dlookup c st.1 ∧
      dlookup c (ks.foldl hstep st).2 = dlookup c st.2 := by
  induction ks with
  | nil => intro st c _; exact ⟨rfl, rfl⟩
  | cons k t ih =>
    intro st c hc
    have hck : c ≠ k := fun h => hc (h ▸ List.mem_cons_self k t)
    have hct : c ∉ t := fun h => hc (List.mem_cons_of_mem k h)
    rw [List.foldl_cons]
    obtain ⟨ha, hb⟩ := ih (hstep st k) c hct
    obtain ⟨hc1, hc2⟩ := hstep_preserve st k c hck
    exact ⟨ha.trans hc1, hb.trans hc2⟩

lemma hstep_fire (st : Dict × JDict) (c : String) (x : ℤ)
    (hv : dlookup c st.1 = some (some x))
    (hshort : (pyStrip ((dlookup c st.2).getD "")).length < 30) :
    hstep st c = (pyset st.1 c (some 0), pyset st.2 c insufficientMsg) := by
  unfold hstep
  rw [hv]
  rw [if_pos hshort]

lemma hygiene_dlookup (r : Dict) (js : JDict) (c : String) (x : ℤ)
    (hkeys : keys r = categories) (hc : c ∈ categories)
    (hv : dlookup c r = some (some x))
    (hshort : (pyStrip ((dlookup c js).getD "")).length < 30) :
    dlookup c (hygiene r js).1 = some (some 0) ∧
    dlookup c (hygiene r js).2 = some insufficientMsg := by
  unfold hygiene
  rw [hkeys]
  obtain ⟨ks1, ks2, hsplit⟩ := List.append_of_mem hc
  have hnd : (ks1 ++ c :: ks2).Nodup := by
    rw [← hsplit]
    exact categories_nodup
  have hc2 : c ∉ ks2 := (List.nodup_cons.mp (List.nodup_append.mp hnd).2.1).1
  have hc1 : c ∉ ks1 := fun hmem =>
    (List.nodup_append.mp hnd).2.2 hmem (List.mem_cons_self c ks2)
  rw [hsplit, List.foldl_append, List.foldl_cons]
  obtain ⟨hp1, hp2⟩ := hfold_preserve ks1 (r, js) c hc1
  have hv1 : dlookup c (List.foldl hstep (r, js) ks1).1 = some (some x) := by
    rw [hp1]
    exact hv
  have hshort1 :
      (pyStrip ((dlookup c (List.foldl hstep (r, js) ks1).2).getD "")).length
        < 30 := by
    rw [hp2]
    exact hshort
  rw [hstep_fire _ c x hv1 hshort1]
  obtain ⟨hq1, hq2⟩ := hfold_preserve ks2
    (pyset (List.foldl hstep (r, js) ks1).1 c (some 0),
     pyset (List.foldl hstep (r, js) ks1).2 c insufficientMsg) c hc2
  constructor
  · rw [hq1]
    exact dlookup_pyset_self _ c (some 0)
  · rw [hq2]
    exact dlookup_pyset_self _ c insufficientMsg

end HygieneLemmas

section OverrideLemmas

lemma dlookup_map_snd (d : Dict) (f : Option ℤ → Option ℤ) (c : String) :
    dlookup c (d.map (fun p => (p.1, f p.2))) = (dlookup c d).map f := by
  induction d with
  | nil => rfl
  | cons p t ih =>
    by_cases hp : p.1 = c <;> simp [dlookup, hp, ih]

lemma override_dlookup_zero (r : Dict) (fl : List String) (c : String)
    (h : dlookup c r = some (some 0)) :
    dlookup c (redFlagOverride r fl) = some (some 0) := by
  unfold redFlagOverride
  split
  · split
    · rw [dlookup_map_snd, h]
      simp [overrideAdjust]
    · exact h
  · exact h

end OverrideLemmas

section StringLemmas

lemma dropWhile_length_le {γ : Type} (p : γ → Bool) (l : List γ) :
    (l.dropWhile p).length ≤ l.length := by
  induction l with
  | nil => simp [List.dropWhile]
  | cons a t ih =>
    rw [List.dropWhile_cons]
    split
    · exact Nat.le_succ_of_le ih
    · simp

lemma pyStrip_length_le (s : String) : (pyStrip s).length ≤ s.length := by
  have h1 : (pyStrip s).length =
      (((s.data.dropWhile Char.isWhitespace).reverse.dropWhile
        Char.isWhitespace).reverse).length := rfl
  have h2 : s.length = s.data.length := rfl
  rw [h1, h2, List.length_reverse]
  calc ((s.data.dropWhile Char.isWhitespace).reverse.dropWhile
          Char.isWhitespace).length
      ≤ (s.data.dropWhile Char.isWhitespace).reverse.length :=
        dropWhile_length_le _ _
    _ = (s.data.dropWhile Char.isWhitespace).length := List.length_reverse _
    _ ≤ s.data.length := dropWhile_length_le _ _

end StringLemmas

section LedgerLemmas

lemma filter_not_cancel (l : List Entry) (f : Entry → Bool) :
    (l.filter (fun x => !(f x))).filter f = [] := by
  induction l with
  | nil => rfl
  | cons e t ih =>
    by_cases h : f e <;> simp [List.filter_cons, h, ih]

lemma filter_idem (l : List Entry) (f : Entry → Bool) :
    (l.filter f).filter f = l.filter f := by
  induction l with
  | nil => rfl
  | cons e t ih =>
    by_cases h : f e <;> simp [List.filter_cons, h, ih]

lemma length_filter_filter_le (p q : Entry → Bool) (l : List Entry) :
    ((l.filter p).filter q).length ≤ (l.filter q).length := by
  induction l with
  | nil => simp
  | cons e t ih =>
    rw [List.filter_cons, List.filter_cons]
    by_cases hp : p e = true
    · rw [if_pos hp, List.filter_cons]
      by_cases hq : q e = true
      · rw [if_pos hq, if_pos hq, List.length_cons, List.length_cons]
        exact Nat.succ_le_succ ih
      · rw [if_neg hq, if_neg hq]
        exact ih
    · rw [if_neg hp]
      by_cases hq : q e = true
      · rw [if_pos hq, List.length_cons]
        exact Nat.le_succ_of_le ih
      · rw [if_neg hq]
        exact ih

lemma keyEntries_upsert_self (e : Entry) (l : List Entry) :
    keyEntries e.company e.quarter (upsert e l) = [e] := by
  unfold keyEntries upsert
  rw [List.filter_append, filter_not_cancel]
  simp [List.filter_cons]

end LedgerLemmas

section MoreLemmas

lemma resolve_canonical (c : String) (hc : c ∈ categories) : resolve c = c := by
  simp only [categories, List.mem_cons, List.not_mem_nil, or_false] at hc
  rcases hc with rfl | rfl | rfl | rfl | rfl | rfl <;> decide

lemma upsert_atMostOne (e : Entry) (l : List Entry)
    (h : atMostOnePerKey l) : atMostOnePerKey (upsert e l) := by
  intro c q
  by_cases hk : e.company = c ∧ e.quarter = q
  · obtain ⟨h1, h2⟩ := hk
    subst h1
    subst h2
    rw [keyEntries_upsert_self]
    simp
  · unfold keyEntries upsert
    rw [List.filter_append]
    have he : (e.company == c && e.quarter == q) = false := by
      by_cases h1 : e.company = c
      · by_cases h2 : e.quarter = q
        · exact absurd ⟨h1, h2⟩ hk
        · simp [h1, h2]
      · simp [h1]
    have hfe : List.filter (fun x => x.company == c && x.quarter == q) [e] =
        [] := by
      simp [List.filter_cons, he]
    rw [hfe, List.append_nil]
    calc ((l.filter (fun x =>
            !(x.company == e.company && x.quarter == e.quarter))).filter
            (fun x => x.company == c && x.quarter == q)).length
        ≤ (l.filter (fun x => x.company == c && x.quarter == q)).length :=
          length_filter_filter_le _ _ l
      _ ≤ 1 := h c q

lemma filterMap_length_all_some (r : Dict)
    (h : ∀ p ∈ r, p.2.isSome = true) :
    (r.filterMap Prod.snd).length = r.length := by
  induction r with
  | nil => rfl
  | cons p t ih =>
    obtain ⟨x, hx⟩ :=
      Option.isSome_iff_exists.mp (h p (List.mem_cons_self p t))
    simp [List.filterMap_cons, hx,
      ih (fun q hq => h q (List.mem_cons_of_mem p hq))]

lemma round4_zero : round4 0 = 0 := by
  unfold round4 pyRoundInt
  norm_num

lemma round4_19_6 : round4 ((19 : ℚ)/6) = 31667/10000 := by
  unfold round4 pyRoundInt
  have h1 : (19 : ℚ)/6 * 10000 = 95000/3 := by norm_num
  rw [h1]
  have h2 : (⌊(95000 : ℚ)/3⌋ : ℤ) = 31666 := by
    rw [Int.floor_eq_iff]
    constructor <;> norm_num
  rw [h2]
  norm_num

lemma avg_c2 : avg_score (normalize_ratings c2Input) = 31667/10000 := by
  unfold avg_score
  have hfm : (normalize_ratings c2Input).filterMap Prod.snd =
      [5, 3, 0, 4, 2, 5] := by decide
  rw [hfm]
  rw [if_pos (by decide)]
  have hs : ([5, 3, 0, 4, 2, 5] : List ℤ).sum = 19 := by decide
  rw [hs]
  have hq : (((19 : ℤ) : ℚ)) / ((([5, 3, 0, 4, 2, 5] : List ℤ).length : ℕ) : ℚ)
      = (19 : ℚ)/6 := by norm_num
  rw [hq, round4_19_6]

end MoreLemmas

/-- C7: for every Raw Rating Mapping, the Normalizer's output key set equals
the Category Schema exactly: every canonical category is present and no other
key appears. Purity is inherent to the functional embedding: the output is
determined by the input alone. -/
theorem c7_normalizer_keyset (rs : List (String × PyVal)) :
    keys (normalize_ratings rs) = categories :=
  normalize_keys rs

/-- C6: upsert is idempotent: upserting the same entry twice yields the same
ledger state as upserting it once, for every entry and every prior state. -/
theorem c6_upsert_idempotent (e : Entry) (l : List Entry) :
    upsert e (upsert e l) = upsert e l := by
  unfold upsert
  rw [List.filter_append, filter_idem]
  have h1 : List.filter
      (fun x => !(x.company == e.company && x.quarter == e.quarter)) [e] =
        [] := by
    simp [List.filter_cons]
  rw [h1, List.append_nil]

/-- C5: upsert removes every entry matching the new entry's (company, quarter)
key and then inserts the new entry, so the upserted key holds exactly the new
entry afterwards; two successive upserts under one key leave exactly that one
entry, equal to the second; and the at-most-one-entry-per-key invariant is
preserved by every upsert. -/
theorem c5_upsert_replacement (l : List Entry) (e1 e2 : Entry)
    (hc : e1.company = e2.company) (hq : e1.quarter = e2.quarter) :
    keyEntries e2.company e2.quarter (upsert e2 (upsert e1 l)) = [e2] ∧
    (∀ e : Entry, ∀ m : List Entry,
      keyEntries e.company e.quarter (upsert e m) = [e]) ∧
    (∀ e : Entry, ∀ m : List Entry,
      atMostOnePerKey m → atMostOnePerKey (upsert e m)) :=
  ⟨keyEntries_upsert_self e2 _,
   fun e m => keyEntries_upsert_self e m,
   fun e m hm => upsert_atMostOne e m hm⟩

/-- Witness for C5 at two concrete entries sharing the key
("Acme", "Q1 FY24"): exactly one entry remains and it is the second one. -/
theorem c5_upsert_replacement_witness :
    ((⟨"2026-01-01", "Acme", "Q1 FY24", [], 1⟩ : Entry).company =
        (⟨"2026-02-01", "Acme", "Q1 FY24", [], 2⟩ : Entry).company ∧
      (⟨"2026-01-01", "Acme", "Q1 FY24", [], 1⟩ : Entry).quarter =
        (⟨"2026-02-01", "Acme", "Q1 FY24", [], 2⟩ : Entry).quarter) ∧
    keyEntries "Acme" "Q1 FY24"
      (upsert ⟨"2026-02-01", "Acme", "Q1 FY24", [], 2⟩
        (upsert ⟨"2026-01-01", "Acme", "Q1 FY24", [], 1⟩ [])) =
      [⟨"2026-02-01", "Acme", "Q1 FY24", [], 2⟩] :=
  ⟨⟨rfl, rfl⟩,
    (c5_upsert_replacement [] ⟨"2026-01-01", "Acme", "Q1 FY24", [], 1⟩
      ⟨"2026-02-01", "Acme", "Q1 FY24", [], 2⟩ rfl rfl).1⟩

/-- C8 counterexample: the pair ("Investor Relations", 2) resolves to the
canonical category "Governance & Integrity" with a valid value, yet the
normalized value for that category is 4, not 2, because the later pair
("Overall Transparency", 4) resolves to the same category and overwrites
the slot. The claim's per-pair guarantee fails as stated. -/
theorem c8_counterexample :
    resolve "Investor Relations" = "Governance & Integrity" ∧
    "Governance & Integrity" ∈ categories ∧
    validPair (PyVal.vint 2) = true ∧
    dlookup "Governance & Integrity"
      (normalize_ratings [("Investor Relations", PyVal.vint 2),
        ("Overall Transparency", PyVal.vint 4)]) ≠ some (some 2) :=
  ⟨by decide, by decide, by decide, by decide⟩

/-- C8 amended: a pair whose label resolves to canonical category c with a
valid integer value 0-5 determines the normalized value for c provided no
later pair also validly resolves to c (when several do, the last in iteration
order wins); and a category to which no pair validly resolves holds the
default sentinel 0. Invalid or unrecognized pairs are discarded silently. -/
theorem c8_last_valid_pair_wins (rs1 rs2 : List (String × PyVal)) (k : String)
    (v : PyVal) (c : String) (h1 : resolve k = c) (hc : c ∈ categories)
    (hv : validPair v = true)
    (h2 : ∀ kv ∈ rs2, ¬(resolve kv.1 = c ∧ validPair kv.2 = true)) :
    dlookup c (normalize_ratings (rs1 ++ (k, v) :: rs2)) =
      some (some v.toInt) ∧
    ∀ rs : List (String × PyVal),
      (∀ kv ∈ rs, ¬(resolve kv.1 = c ∧ validPair kv.2 = true)) →
      dlookup c (normalize_ratings rs) = some (some 0) := by
  constructor
  · rw [normalize_dlookup _ c hc, List.foldl_append, List.foldl_cons]
    have hfire : lastStep c (List.foldl (lastStep c) (some (some 0)) rs1)
        (k, v) = some (some v.toInt) := by
      unfold lastStep
      rw [if_pos ⟨h1, hv⟩]
    rw [hfire]
    exact foldl_lastStep_nofire c rs2 _ h2
  · intro rs hrs
    rw [normalize_dlookup _ c hc]
    exact foldl_lastStep_nofire c rs _ hrs

/-- Witness for C8 amended: a lone valid pair is stored, and a category
receiving only an invalid pair keeps the sentinel 0. -/
theorem c8_last_valid_pair_wins_witness :
    (resolve "Investor Relations" = "Governance & Integrity" ∧
      "Governance & Integrity" ∈ categories ∧
      validPair (PyVal.vint 2) = true) ∧
    dlookup "Governance & Integrity"
      (normalize_ratings [("Investor Relations", PyVal.vint 2)]) =
        some (some 2) ∧
    dlookup "Governance & Integrity"
      (normalize_ratings [("Governance & Integrity", PyVal.vstr "n/a")]) =
        some (some 0) := by
  have h := c8_last_valid_pair_wins [] [] "Investor Relations" (PyVal.vint 2)
    "Governance & Integrity" (by decide) (by decide) (by decide)
    (by intro kv hkv; cases hkv)
  exact ⟨⟨by decide, by decide, by decide⟩, h.1,
    h.2 [("Governance & Integrity", PyVal.vstr "n/a")] (by decide)⟩

/-- C9: Python booleans pass the isinstance int test, so for any label that
resolves to a canonical category, a value of True is stored as score 1
rather than discarded, and False is stored as score 0, overwriting even a
previously stored valid score. -/
theorem c9_bool_scores_accepted (k c : String) (h1 : resolve k = c)
    (hc : c ∈ categories) :
    dlookup c (normalize_ratings [(k, PyVal.vbool true)]) = some (some 1) ∧
    dlookup c (normalize_ratings [(c, PyVal.vint 4), (k, PyVal.vbool false)]) =
      some (some 0) := by
  have hrc : resolve c = c := resolve_canonical c hc
  have hbt : validPair (PyVal.vbool true) = true := by decide
  have hbf : validPair (PyVal.vbool false) = true := by decide
  have h4 : validPair (PyVal.vint 4) = true := by decide
  constructor
  · rw [normalize_dlookup _ c hc, List.foldl_cons, List.foldl_nil]
    unfold lastStep
    rw [if_pos ⟨h1, hbt⟩]
    rfl
  · rw [normalize_dlookup _ c hc, List.foldl_cons, List.foldl_cons,
      List.foldl_nil]
    have s1 : lastStep c (some (some 0)) (c, PyVal.vint 4) = some (some 4) := by
      unfold lastStep
      rw [if_pos ⟨hrc, h4⟩]
      rfl
    rw [s1]
    unfold lastStep
    rw [if_pos ⟨h1, hbf⟩]
    rfl

/-- Witness for C9 at the alias "Investor Relations", which resolves to
"Governance & Integrity". -/
theorem c9_bool_scores_accepted_witness :
    (resolve "Investor Relations" = "Governance & Integrity" ∧
      "Governance & Integrity" ∈ categories) ∧
    dlookup "Governance & Integrity"
      (normalize_ratings [("Investor Relations", PyVal.vbool true)]) =
        some (some 1) :=
  ⟨⟨by decide, by decide⟩,
    (c9_bool_scores_accepted "Investor Relations" "Governance & Integrity"
      (by decide) (by decide)).1⟩

/-- C4: for every category whose justification text is shorter than 30
characters, the hygiene gate forces the score to 0 and replaces the
justification with the fixed insufficient-justification message, regardless
of the pre-gate score; and because the gate runs before the red-flag
override, the category still holds 0 after the full post-processing
pipeline, for every red-flag list. -/
theorem c4_hygiene_gate (rs : List (String × PyVal)) (js : JDict)
    (fl : List String) (c : String) (hc : c ∈ categories)
    (hlen : ((dlookup c js).getD "").length < 30) :
    dlookup c (hygiene (normalize_ratings rs) js).1 = some (some 0) ∧
    dlookup c (hygiene (normalize_ratings rs) js).2 = some insufficientMsg ∧
    dlookup c (postProcess rs js fl) = some (some 0) := by
  obtain ⟨x, hx⟩ := normalize_some rs c hc
  have hshort : (pyStrip ((dlookup c js).getD "")).length < 30 :=
    lt_of_le_of_lt (pyStrip_length_le _) hlen
  obtain ⟨hh1, hh2⟩ := hygiene_dlookup (normalize_ratings rs) js c x
    (normalize_keys rs) hc hx hshort
  refine ⟨hh1, hh2, ?_⟩
  unfold postProcess
  exact override_dlookup_zero _ fl c hh1

/-- Witness for C4: a category scored 5 with a 9-character justification is
forced to 0 through the end of the pipeline. -/
theorem c4_hygiene_gate_witness :
    ("Strategy & Vision" ∈ categories ∧
      ((dlookup "Strategy & Vision"
        [("Strategy & Vision", "too short")]).getD "").length < 30) ∧
    dlookup "Strategy & Vision"
      (postProcess [("Strategy & Vision", PyVal.vint 5)]
        [("Strategy & Vision", "too short")] []) = some (some 0) :=
  ⟨⟨by decide, by decide⟩,
    (c4_hygiene_gate [("Strategy & Vision", PyVal.vint 5)]
      [("Strategy & Vision", "too short")] [] "Strategy & Vision"
      (by decide) (by decide)).2.2⟩

/-- C10: the hygiene gate's None-check is vacuous because normalize_ratings
never produces None, so every canonical category is examined by the gate —
including sentinel-valued ones — and any category whose justification,
stripped of surrounding whitespace, is shorter than 30 characters gets its
justification overwritten with the fixed message. -/
theorem c10_hygiene_covers_sentinel (rs : List (String × PyVal)) (js : JDict)
    (c : String) (hc : c ∈ categories)
    (hshort : (pyStrip ((dlookup c js).getD "")).length < 30) :
    dlookup c (hygiene (normalize_ratings rs) js).2 = some insufficientMsg ∧
    ∀ p ∈ normalize_ratings rs, p.2 ≠ none := by
  obtain ⟨x, hx⟩ := normalize_some rs c hc
  refine ⟨(hygiene_dlookup _ js c x (normalize_keys rs) hc hx hshort).2, ?_⟩
  intro p hp hn
  simpa [hn] using normalize_values rs p hp

/-- Witness for C10: with an empty scorer output, the sentinel-valued
category "Communication Clarity" still has its justification replaced. -/
theorem c10_hygiene_covers_sentinel_witness :
    ("Communication Clarity" ∈ categories ∧
      (pyStrip ((dlookup "Communication Clarity"
        ([] : JDict)).getD "")).length < 30) ∧
    dlookup "Communication Clarity"
      (hygiene (normalize_ratings []) ([] : JDict)).2 =
        some insufficientMsg :=
  ⟨⟨by decide, by decide⟩,
    (c10_hygiene_covers_sentinel [] [] "Communication Clarity"
      (by decide) (by decide)).1⟩

/-- C3 counterexample: for the normalized record scoring only Strategy &
Vision and Execution & Delivery at 5 (the other four categories sentinel),
with two red flags, the mean of the valid-only (non-sentinel) scores is 5,
which exceeds 3.5 — yet the override leaves Strategy & Vision at 5 instead
of clamping it to 3, because the code divides the sum by the category count
(10/6 = 1.67 is not above 3.5). The claim fails as stated. -/
theorem c3_counterexample :
    2 ≤ twoFlags.length ∧
    (3.5 : ℚ) < specValidOnlyMean (normalize_ratings c3Input) ∧
    dlookup "Strategy & Vision" (normalize_ratings c3Input) =
      some (some 5) ∧
    dlookup "Strategy & Vision"
      (redFlagOverride (normalize_ratings c3Input) twoFlags) ≠
        some (some 3) := by
  refine ⟨by decide, ?_, by decide, ?_⟩
  · unfold specValidOnlyMean
    have hv : ((normalize_ratings c3Input).filterMap Prod.snd).filter
        (fun v => v ≠ 0) = [5, 5] := by decide
    rw [hv]
    have hs : ([5, 5] : List ℤ).sum = 10 := by decide
    rw [hs]
    norm_num
  · have hs : ((normalize_ratings c3Input).filterMap Prod.snd).sum = 10 := by
      decide
    have hov : redFlagOverride (normalize_ratings c3Input) twoFlags =
        normalize_ratings c3Input := by
      unfold redFlagOverride
      rw [if_pos (by decide), hs]
      rw [if_neg (by norm_num [categories])]
    rw [hov]
    decide

/-- C3 amended: the override's trigger is not the valid-only mean but the sum
of all current scores divided by the category count (6). Whenever at least
two red flags are present and that quotient exceeds 3.5, every category
scored above 4 is set to exactly 3 and every category scored 4 or below is
unchanged. -/
theorem c3_override_mean_over_category_count (r : Dict) (fl : List String)
    (hfl : 2 ≤ fl.length)
    (hmean : (3.5 : ℚ) <
      ((r.filterMap Prod.snd).sum : ℚ) / (categories.length : ℚ))
    (c : String) (v : ℤ) (hv : dlookup c r = some (some v)) :
    (4 < v → dlookup c (redFlagOverride r fl) = some (some 3)) ∧
    (v ≤ 4 → dlookup c (redFlagOverride r fl) = some (some v)) := by
  have hfire : redFlagOverride r fl =
      r.map (fun p => (p.1, overrideAdjust p.2)) := by
    unfold redFlagOverride
    rw [if_pos hfl, if_pos hmean]
  rw [hfire, dlookup_map_snd, hv]
  constructor
  · intro h4
    have ha : overrideAdjust (some v) = some 3 := by
      show (if v ≠ 0 ∧ 4 < v then some 3 else some v) = some 3
      rw [if_pos ⟨by omega, h4⟩]
    rw [show (some (some v)).map overrideAdjust =
      some (overrideAdjust (some v)) from rfl, ha]
  · intro h4
    have ha : overrideAdjust (some v) = some v := by
      show (if v ≠ 0 ∧ 4 < v then some 3 else some v) = some v
      rw [if_neg (fun hh => absurd hh.2 (by omega))]
    rw [show (some (some v)).map overrideAdjust =
      some (overrideAdjust (some v)) from rfl, ha]

/-- Witness for C3 amended: the all-fives record with two red flags (sum 30,
30/6 = 5 above 3.5) has Strategy & Vision clamped to exactly 3. -/
theorem c3_override_witness :
    (2 ≤ twoFlags.length ∧
      (3.5 : ℚ) <
        (((normalize_ratings allFivesInput).filterMap Prod.snd).sum : ℚ) /
          (categories.length : ℚ) ∧
      dlookup "Strategy & Vision" (normalize_ratings allFivesInput) =
        some (some 5) ∧ (4 : ℤ) < 5) ∧
    dlookup "Strategy & Vision"
      (redFlagOverride (normalize_ratings allFivesInput) twoFlags) =
        some (some 3) := by
  have hmean : (3.5 : ℚ) <
      (((normalize_ratings allFivesInput).filterMap Prod.snd).sum : ℚ) /
        (categories.length : ℚ) := by
    rw [show ((normalize_ratings allFivesInput).filterMap Prod.snd).sum = 30
      from by decide]
    norm_num [categories]
  exact ⟨⟨by decide, hmean, by decide, by decide⟩,
    (c3_override_mean_over_category_count _ twoFlags (by decide) hmean
      "Strategy & Vision" 5 (by decide)).1 (by decide)⟩

/-- C2 counterexample: in the record built from the spec's example (all
categories scored except Communication Clarity, which holds the sentinel 0),
the sentinel IS an int, so the isinstance filter keeps it: the persisted
average is round((5+3+0+4+2+5)/6, 4) = 3.1667, not the claimed
(5+3+4+2+5)/5 = 3.8. -/
theorem c2_counterexample :
    dlookup "Communication Clarity" (normalize_ratings c2Input) =
      some (some 0) ∧
    avg_score (normalize_ratings c2Input) ≠ 19/5 ∧
    avg_score (normalize_ratings c2Input) = 31667/10000 := by
  refine ⟨by decide, ?_, avg_c2⟩
  rw [avg_c2]
  norm_num

/-- C2 amended: the valid-scores filter admits the sentinel 0, so every one
of the six categories is always counted: the persisted average is the sum of
all six values divided by 6, rounded half-to-even at 4 decimal digits; for
the spec's example record it equals 3.1667; and the average is 0 only when
the ratings mapping itself is empty, which a normalized record never is. -/
theorem c2_average_includes_sentinel (rs : List (String × PyVal)) :
    ((normalize_ratings rs).filterMap Prod.snd).length = categories.length ∧
    avg_score (normalize_ratings rs) =
      round4 ((((normalize_ratings rs).filterMap Prod.snd).sum : ℚ) /
        (categories.length : ℚ)) ∧
    avg_score (normalize_ratings c2Input) = 31667/10000 ∧
    avg_score [] = 0 := by
  have hlen : ((normalize_ratings rs).filterMap Prod.snd).length =
      categories.length := by
    rw [filterMap_length_all_some _ (normalize_values rs)]
    calc (normalize_ratings rs).length
        = (keys (normalize_ratings rs)).length := (List.length_map _ _).symm
      _ = categories.length := by rw [normalize_keys rs]
  have hne : (normalize_ratings rs).filterMap Prod.snd ≠ [] := by
    intro hnil
    rw [hnil] at hlen
    simp [categories] at hlen
  refine ⟨hlen, ?_, avg_c2, by simp [avg_score]⟩
  unfold avg_score
  rw [if_pos hne, hlen]

/-- C1: when the scorer's textual response fails to parse (for example the
literal text "not a dictionary", which is not valid JSON), the code shows an
error message but does NOT leave the Ledger unchanged: the run continues
with an empty result, normalizes it to an all-sentinel record, and upserts a
History Entry with every category 0 and Average 0. The ledger after the run
differs from the ledger before it, contradicting the claim. -/
theorem c1_malformed_response_still_persists :
    runRating (ScorerOutcome.parseFailure "not a dictionary") "2026-10-12"
        "Acme Industries" "Q1 FY24" priorLedger =
      priorLedger ++
        [⟨"2026-10-12", "Acme Industries", "Q1 FY24", zeroDict, 0⟩] ∧
    runRating (ScorerOutcome.parseFailure "not a dictionary") "2026-10-12"
        "Acme Industries" "Q1 FY24" priorLedger ≠ priorLedger := by
  have hpp : postProcess [] [] [] = zeroDict := by decide
  have havg : avg_score zeroDict = 0 := by
    unfold avg_score
    have h : zeroDict.filterMap Prod.snd = [0, 0, 0, 0, 0, 0] := by decide
    rw [h]
    rw [if_pos (by decide)]
    have hs : ([0, 0, 0, 0, 0, 0] : List ℤ).sum = 0 := by decide
    rw [hs]
    have hq : (((0 : ℤ) : ℚ)) /
        ((([0, 0, 0, 0, 0, 0] : List ℤ).length : ℕ) : ℚ) = 0 := by norm_num
    rw [hq, round4_zero]
  have hdef : runRating (ScorerOutcome.parseFailure "not a dictionary")
      "2026-10-12" "Acme Industries" "Q1 FY24" priorLedger =
      upsert ⟨"2026-10-12", "Acme Industries", "Q1 FY24",
        postProcess [] [] [], avg_score (postProcess [] [] [])⟩
        priorLedger := rfl
  rw [hdef, hpp, havg]
  exact ⟨by decide, by decide⟩
